import Mathlib

/-!
# Fuel station simulation (`main.go`)

A shallow embedding of the station program: two buffered channels used as
pools of pumps and vehicles, a deadline channel obtained from `time.After`,
the dispatch loop `RunPumps`, the per-pump goroutine `FillNext`, the global
wait group `wg` and the report `PrintTotals`.

Concurrency is made explicit as a transition system.  A transition runs one
goroutine from one channel operation (a `select` or a send) up to the next
one, so the statements between two channel operations (`current.Fillup()`,
`p.Fillups++`, `wg.Add(1)`, `go ...`, `wg.Done()`) belong to the transition
of the channel operation that precedes them.  A schedule is a list of
`Action`s; `exec` runs a schedule and is `none` when the scheduled goroutine
cannot move (its channel operation would block).

Counters are Go `int`s.  Every increment of `Fillups` follows a 50 ms sleep,
so the counters stay far from the machine bounds and are modelled as `Int`
without wrap-around.  `time.Sleep` itself has no effect on the state, and the
instant at which the timer expires is left to the schedule.  `make` runs the
size check of the Go runtime (`makechan: size out of range`) with the constants
of the 64-bit targets; whether the machine then has the memory is not
modelled.  The panic of `wg.Done()` on a negative counter is not modelled
either; the counter is shown to stay non-negative (`Inv.wg`).
-/

namespace ChannelChallenge

/-! ## Data model -/

/-- Go `type Vehicle struct { Id int; Fillups int }`. -/
structure Vehicle where
  Id : Int
  Fillups : Int
deriving DecidableEq, Repr

/-- Go `type Pump struct { Id int; Fillups int }`. -/
structure Pump where
  Id : Int
  Fillups : Int
deriving DecidableEq, Repr

/-- A buffered Go channel: its capacity and the queued values, oldest first. -/
structure Chan (α : Type) where
  cap : Nat
  buf : List α
deriving DecidableEq, Repr

/-- Width in bits of Go `int` and `uintptr` on the 64-bit targets. -/
def wordBits : Nat :=
  64

/-- Size in bytes of a `Pump` value and of a `Vehicle` value on the 64-bit
targets: two `int` fields of 8 bytes each. -/
def entitySize : Nat :=
  16

/-- Go runtime constant `maxAlloc`, the largest allocation the runtime accepts
(`1 << 48` bytes on 64-bit Linux). -/
def maxAlloc : Nat :=
  2 ^ 48

/-- Go runtime constant `hchanSize`, the size in bytes of the header of a
channel (96 on the 64-bit targets). -/
def hchanSize : Nat :=
  96

/-- Go `make(chan T, size)` for an element type of `elemSize` bytes, with the
check of `runtime.makechan`:
`mem, overflow := math.MulUintptr(elem.Size_, uintptr(size))` and
`if overflow || mem > maxAlloc-hchanSize || size < 0 { panic(...) }`.
The result is `none` when `make` panics with `makechan: size out of range`.
For a negative `size` the product is not looked at, since `size < 0` alone
panics. -/
def makeChan (α : Type) (elemSize : Nat) (size : Int) : Option (Chan α) :=
  let mem := elemSize * size.toNat
  if 2 ^ wordBits ≤ mem ∨ maxAlloc - hchanSize < mem ∨ size < 0 then none
  else some { cap := size.toNat, buf := [] }

/-- Go `ch <- x` on a buffered channel: appends at the tail; `none` when the
buffer is full, in which case the sender blocks.  A channel of capacity zero
only passes a value to a receiver that is already waiting; in this program a
send is only run by a goroutine that took the value from the same channel
before, so no send on a channel of capacity zero is ever run and the hand-over
is not modelled. -/
def Chan.send {α : Type} (ch : Chan α) (x : α) : Option (Chan α) :=
  if ch.buf.length < ch.cap then some { ch with buf := ch.buf ++ [x] } else none

/-- Go `x := <-ch`: takes the head of the buffer; `none` when the buffer is
empty, in which case the receive is not ready. -/
def Chan.recv {α : Type} (ch : Chan α) : Option (α × Chan α) :=
  match ch.buf with
  | [] => none
  | x :: rest => some (x, { ch with buf := rest })

/-- Go `close(ch); for x := range ch { ... }`: the values are visited in
queue order until the buffer is empty. -/
def Chan.drain {α : Type} (ch : Chan α) : List α :=
  ch.buf

/-- Go `type Station struct { Pumps chan Pump; Vehicles chan Vehicle;
Timeout <-chan time.Time }`.  The time value carried by `Timeout` is not
used by the program and is modelled as `Unit`. -/
structure Station where
  Pumps : Chan Pump
  Vehicles : Chan Vehicle
  Timeout : Chan Unit
deriving DecidableEq, Repr

/-- Go `time.After(d)`: "After waits for the duration to elapse and then sends
the current time on the returned channel".  The result is a fresh, empty
channel on which the runtime timer sends a single value when it expires; the
channel is never closed, so exactly one receive from it can succeed.  The
expiry itself is the transition `timerFires`. -/
def timeAfter : Chan Unit :=
  { cap := 1, buf := [] }

/-- The loop `for i := 0; i < maxPumps; i++ { pumps <- Pump{Id: i} }`,
entered with loop variable `i`. -/
def loadPumps (maxPumps : Int) (i : Int) (pumps : Chan Pump) : Option (Chan Pump) :=
  if i < maxPumps then
    match pumps.send { Id := i, Fillups := 0 } with
    | none => none
    | some pumps1 => loadPumps maxPumps (i + 1) pumps1
  else some pumps
termination_by (maxPumps - i).toNat
decreasing_by omega

/-- The loop `for i := 0; i < maxCars; i++ { vehicles <- Vehicle{Id: i} }`,
entered with loop variable `i`. -/
def loadVehicles (maxCars : Int) (i : Int) (vehicles : Chan Vehicle) :
    Option (Chan Vehicle) :=
  if i < maxCars then
    match vehicles.send { Id := i, Fillups := 0 } with
    | none => none
    | some vehicles1 => loadVehicles maxCars (i + 1) vehicles1
  else some vehicles
termination_by (maxCars - i).toNat
decreasing_by omega

/-- Go `NewStation(maxCars, maxPumps)`.  The result is `none` when `make`
panics or when a load send would block. -/
def NewStation (maxCars maxPumps : Int) : Option Station := do
  let pumps ← makeChan Pump entitySize maxPumps
  let vehicles ← makeChan Vehicle entitySize maxCars
  let timeout := timeAfter
  let pumps ← loadPumps maxPumps 0 pumps
  let vehicles ← loadVehicles maxCars 0 vehicles
  pure { Pumps := pumps, Vehicles := vehicles, Timeout := timeout }

/-- Go `func (c *Vehicle) Fillup()`: sleeps, then `c.Fillups++`. -/
def Vehicle.Fillup (c : Vehicle) : Vehicle :=
  { c with Fillups := c.Fillups + 1 }

/-! ## Goroutines and global state -/

/-- The case a `select` takes: `case <-s.Timeout` or the receive from a pool. -/
inductive Case where
  | timeout
  | receive
deriving DecidableEq, Repr

/-- Control point of a running `FillNext(p)` goroutine, with its locals. -/
inductive Op where
  /-- Blocked in the `select` with parameter `p`. -/
  | atSelect (p : Pump)
  /-- About to run `s.Vehicles <- current`; both counters already incremented. -/
  | atSendVehicle (p : Pump) (current : Vehicle)
  /-- About to run `s.Pumps <- p` (followed by `wg.Done()` and `return`). -/
  | atSendPump (p : Pump)
deriving DecidableEq, Repr

/-- Pump held in the locals of a `FillNext` goroutine. -/
def Op.pump : Op → Pump
  | .atSelect p => p
  | .atSendVehicle p _ => p
  | .atSendPump p => p

/-- Vehicle held in the locals of a `FillNext` goroutine, if any. -/
def Op.vehicles : Op → List Vehicle
  | .atSendVehicle _ current => [current]
  | _ => []

/-- Pumps held by the running `FillNext` goroutines. -/
def heldPumps : List Op → List Pump
  | [] => []
  | op :: ops => op.pump :: heldPumps ops

/-- Vehicles held by the running `FillNext` goroutines. -/
def heldVehicles : List Op → List Vehicle
  | [] => []
  | op :: ops => op.vehicles ++ heldVehicles ops

/-- Whole-program state while `main` is inside or past `s.RunPumps()`. -/
structure State where
  /-- The station `s`. -/
  s : Station
  /-- The runtime timer behind `s.Timeout` has not expired yet. -/
  timerArmed : Bool
  /-- Counter of the global `sync.WaitGroup`. -/
  wg : Int
  /-- The loop of `RunPumps` has not returned. -/
  running : Bool
  /-- The `FillNext` goroutines launched and not yet returned, oldest first. -/
  ops : List Op
  /-- History variable: the parameters `p` of the `FillNext` goroutines that
  returned through `case <-s.Timeout`, latest first. -/
  expired : List Pump
deriving DecidableEq, Repr

/-- State in which `main` enters `s.RunPumps()`. -/
def start (maxCars maxPumps : Int) : Option State :=
  (NewStation maxCars maxPumps).map fun s =>
    { s := s, timerArmed := true, wg := 0, running := true, ops := [], expired := [] }

/-- The runtime timer expires: it sends one value on `s.Timeout`. -/
def timerFires (st : State) : Option State :=
  if st.timerArmed then
    match st.s.Timeout.send () with
    | none => none
    | some t => some { st with s.Timeout := t, timerArmed := false }
  else none

/-- One iteration of the loop of `RunPumps`, taking case `c` of its `select`.
`none` when the loop has returned or the chosen case is not ready. -/
def RunPumps (st : State) (c : Case) : Option State :=
  if st.running then
    match c with
    | .timeout =>
      match st.s.Timeout.recv with
      | none => none
      | some (_, t) => some { st with s.Timeout := t, running := false }
    | .receive =>
      match st.s.Pumps.recv with
      | none => none
      | some (p, pumps) =>
        some { st with s.Pumps := pumps, wg := st.wg + 1, ops := st.ops ++ [Op.atSelect p] }
  else none

/-- One transition of the `i`-th running `FillNext` goroutine.  At the
`select` it takes case `c`; at a send, `c` is not used.  `none` when there is
no such goroutine or its channel operation is not ready. -/
def FillNext (st : State) (i : Nat) (c : Case) : Option State :=
  match st.ops[i]? with
  | none => none
  | some (.atSelect p) =>
    match c with
    | .timeout =>
      match st.s.Timeout.recv with
      | none => none
      | some (_, t) =>
        some { st with s.Timeout := t, ops := st.ops.eraseIdx i, expired := p :: st.expired }
    | .receive =>
      match st.s.Vehicles.recv with
      | none => none
      | some (current, vehicles) =>
        let current := current.Fillup
        let p := { p with Fillups := p.Fillups + 1 }
        some { st with s.Vehicles := vehicles, ops := st.ops.set i (Op.atSendVehicle p current) }
  | some (.atSendVehicle p current) =>
    match st.s.Vehicles.send current with
    | none => none
    | some vehicles =>
      some { st with s.Vehicles := vehicles, ops := st.ops.set i (Op.atSendPump p) }
  | some (.atSendPump p) =>
    match st.s.Pumps.send p with
    | none => none
    | some pumps =>
      some { st with s.Pumps := pumps, wg := st.wg - 1, ops := st.ops.eraseIdx i }

/-- A scheduling decision. -/
inductive Action where
  /-- The timer behind `s.Timeout` expires. -/
  | tick
  /-- The loop of `RunPumps` runs one iteration, its `select` taking the case. -/
  | runPumps (c : Case)
  /-- The `i`-th running `FillNext` goroutine makes one transition. -/
  | fillNext (i : Nat) (c : Case)
deriving DecidableEq, Repr

/-- One transition of the program. -/
def step (st : State) : Action → Option State
  | .tick => timerFires st
  | .runPumps c => RunPumps st c
  | .fillNext i c => FillNext st i c

/-- Runs a schedule. -/
def exec (st : State) : List Action → Option State
  | [] => some st
  | a :: rest =>
    match step st a with
    | none => none
    | some st1 => exec st1 rest

/-- States reachable from `NewStation(maxCars, maxPumps)` by transitions of
the timer, `RunPumps` and `FillNext`. -/
def Reachable (maxCars maxPumps : Int) (st : State) : Prop :=
  ∃ st0 acts, start maxCars maxPumps = some st0 ∧ exec st0 acts = some st

/-- `FillNext` run from its `select` to its `return` through the vehicle
case, with no other goroutine scheduled in between. -/
def serve (st : State) (i : Nat) : Option State :=
  exec st [Action.fillNext i Case.receive, Action.fillNext i Case.receive,
    Action.fillNext i Case.receive]

/-- `main` is past `s.RunPumps()` and `wg.Wait()` does not block. -/
def reportReady (st : State) : Prop :=
  st.running = false ∧ st.wg = 0

/-- The `(Id, Fillups)` rows written by the first loop of `PrintTotals`. -/
def pumpRows (s : Station) : List (Int × Int) :=
  s.Pumps.drain.map fun p => (p.Id, p.Fillups)

/-- The `(Id, Fillups)` rows written by the second loop of `PrintTotals`. -/
def carRows (s : Station) : List (Int × Int) :=
  s.Vehicles.drain.map fun c => (c.Id, c.Fillups)

/-- Formats one row as `fmt.Fprintf(w, "%v\t%v\n", id, fillups)` does,
without the final newline. -/
def fmtRow (r : Int × Int) : String :=
  toString r.1 ++ "\t" ++ toString r.2

/-- Go `PrintTotals`: the lines handed to the tab writer, in order. -/
def PrintTotals (s : Station) : List String :=
  let row := "===============\t==============="
  [row, "Pump\tFills Given", row] ++ (pumpRows s).map fmtRow ++
    ["", row, "Car\tFills Received", row] ++ (carRows s).map fmtRow

/-- Go `main` under a schedule: `NewStation(10, 4)`, then `s.RunPumps()` and
the goroutines it launches run as scheduled; the report is printed when
`RunPumps` has returned and `wg.Wait()` does not block.  `none` when the
schedule cannot be run or does not lead to the report. -/
def main (acts : List Action) : Option (List String) :=
  match start 10 4 with
  | none => none
  | some st0 =>
    match exec st0 acts with
    | none => none
    | some st => if st.running = false ∧ st.wg = 0 then some (PrintTotals st.s) else none

/-- The ids `0, 1, ..., n - 1` in ascending order. -/
def idsBelow (n : Int) : List Int :=
  (List.range n.toNat).map fun (k : Nat) => (k : Int)

/-- Pumps `0, ..., n - 1` in ascending order, each with `Fillups = 0`. -/
def freshPumps (n : Nat) : List Pump :=
  (List.range n).map fun (k : Nat) => { Id := (k : Int), Fillups := 0 }

/-- Vehicles `0, ..., n - 1` in ascending order, each with `Fillups = 0`. -/
def freshVehicles (n : Nat) : List Vehicle :=
  (List.range n).map fun (k : Nat) => { Id := (k : Int), Fillups := 0 }

/-- Sum of the `Fillups` counters of a list of pumps. -/
def pumpFills (ps : List Pump) : Int :=
  (ps.map Pump.Fillups).sum

/-- Sum of the `Fillups` counters of a list of vehicles. -/
def vehicleFills (vs : List Vehicle) : Int :=
  (vs.map Vehicle.Fillups).sum

/-- The inductive invariant of the transition system started by
`NewStation(maxCars, maxPumps)`: channel capacities are fixed, every vehicle
id is in the vehicle pool or in the locals of a goroutine, every pump id is
in the pump pool, in the locals of a goroutine or was dropped on the deadline
path, and the wait group counts the running goroutines plus the ones that
returned on the deadline path. -/
structure Inv (maxCars maxPumps : Int) (st : State) : Prop where
  carsNonneg : 0 ≤ maxCars
  pumpsNonneg : 0 ≤ maxPumps
  capVehicles : st.s.Vehicles.cap = maxCars.toNat
  capPumps : st.s.Pumps.cap = maxPumps.toNat
  vehicles : List.Perm ((st.s.Vehicles.buf ++ heldVehicles st.ops).map Vehicle.Id)
    (idsBelow maxCars)
  pumps : List.Perm ((st.s.Pumps.buf ++ heldPumps st.ops ++ st.expired).map Pump.Id)
    (idsBelow maxPumps)
  wg : st.wg = st.ops.length + st.expired.length

/-! ## The run of `main`

`main` calls `NewStation(10, 4)`.  The states and schedules below are used to
evaluate the program on concrete executions. -/

/-- State in which `main` enters `s.RunPumps()` after `NewStation(10, 4)`. -/
def mainStart : State :=
  { s := { Pumps := { cap := 4, buf := freshPumps 4 },
           Vehicles := { cap := 10, buf := freshVehicles 10 },
           Timeout := timeAfter },
    timerArmed := true, wg := 0, running := true, ops := [], expired := [] }

/-- `RunPumps` launches `FillNext` for pumps 0 and 1, then the timer expires. -/
def deadlineSchedule : List Action :=
  [Action.runPumps Case.receive, Action.runPumps Case.receive, Action.tick]

/-- After `deadlineSchedule`, the goroutine holding pump 0 takes
`case <-s.Timeout` and returns. -/
def leakSchedule : List Action :=
  deadlineSchedule ++ [Action.fillNext 0 Case.timeout]

/-- Pump 0 serves vehicle 0 and goes back to the pool; `RunPumps` then launches
`FillNext` for pumps 1, 2, 3 and 0; the timer expires and the goroutine holding
pump 0 takes `case <-s.Timeout`. -/
def servedLeakSchedule : List Action :=
  [Action.runPumps Case.receive, Action.fillNext 0 Case.receive,
    Action.fillNext 0 Case.receive, Action.fillNext 0 Case.receive,
    Action.runPumps Case.receive, Action.runPumps Case.receive,
    Action.runPumps Case.receive, Action.runPumps Case.receive,
    Action.tick, Action.fillNext 3 Case.timeout]

/-- `RunPumps` launches `FillNext` for the four pumps and goroutine `k` receives
vehicle `k`; the timer expires and `RunPumps` returns; then the goroutines
finish one after the other (send the vehicle, send the pump), the one holding
pump 1 first, then the ones holding pumps 0, 2 and 3. -/
def reportSchedule : List Action :=
  [Action.runPumps Case.receive, Action.runPumps Case.receive,
    Action.runPumps Case.receive, Action.runPumps Case.receive,
    Action.fillNext 0 Case.receive, Action.fillNext 1 Case.receive,
    Action.fillNext 2 Case.receive, Action.fillNext 3 Case.receive,
    Action.tick, Action.runPumps Case.timeout,
    Action.fillNext 1 Case.receive, Action.fillNext 1 Case.receive,
    Action.fillNext 0 Case.receive, Action.fillNext 0 Case.receive,
    Action.fillNext 0 Case.receive, Action.fillNext 0 Case.receive,
    Action.fillNext 0 Case.receive, Action.fillNext 0 Case.receive]

/-- `RunPumps` launches `FillNext` for pump 0, which receives vehicle 0. -/
def fillingSchedule : List Action :=
  [Action.runPumps Case.receive, Action.fillNext 0 Case.receive]

/-- The state after the schedule `[runPumps receive]`: one `FillNext` goroutine
is blocked in its `select` with pump 0. -/
def launchedState : State :=
  { s := { Pumps := { cap := 4, buf := (freshPumps 4).tail },
           Vehicles := { cap := 10, buf := freshVehicles 10 },
           Timeout := timeAfter },
    timerArmed := true, wg := 1, running := true,
    ops := [Op.atSelect { Id := 0, Fillups := 0 }], expired := [] }

/-- The state after `fillingSchedule`: the goroutine holds pump 0 and vehicle 0
and is about to send the vehicle back. -/
def fillingState : State :=
  { s := { Pumps := { cap := 4, buf := (freshPumps 4).tail },
           Vehicles := { cap := 10, buf := (freshVehicles 10).tail },
           Timeout := timeAfter },
    timerArmed := true, wg := 1, running := true,
    ops := [Op.atSendVehicle { Id := 0, Fillups := 1 } { Id := 0, Fillups := 1 }],
    expired := [] }

/-- The state after `reportSchedule`: `RunPumps` has returned and the wait
group is at zero. -/
def reportState : State :=
  { s := { Pumps := { cap := 4,
                      buf := [{ Id := 1, Fillups := 1 }, { Id := 0, Fillups := 1 },
                              { Id := 2, Fillups := 1 }, { Id := 3, Fillups := 1 }] },
           Vehicles := { cap := 10,
                         buf := [{ Id := 4, Fillups := 0 }, { Id := 5, Fillups := 0 },
                                 { Id := 6, Fillups := 0 }, { Id := 7, Fillups := 0 },
                                 { Id := 8, Fillups := 0 }, { Id := 9, Fillups := 0 },
                                 { Id := 1, Fillups := 1 }, { Id := 0, Fillups := 1 },
                                 { Id := 2, Fillups := 1 }, { Id := 3, Fillups := 1 }] },
           Timeout := { cap := 1, buf := [] } },
    timerArmed := false, wg := 0, running := false, ops := [], expired := [] }

/-! ## Construction -/

theorem loadPumps_eq (maxPumps : Int) (n : Nat) :
    ∀ (i : Int) (ch : Chan Pump), (maxPumps - i).toNat = n → ch.buf.length + n ≤ ch.cap →
      loadPumps maxPumps i ch =
        some { ch with buf := ch.buf ++ (List.range n).map fun k => { Id := i + k, Fillups := 0 } } := by
  induction n with
  | zero =>
    intro i ch hn _
    have hi : ¬ i < maxPumps := by omega
    rw [loadPumps, if_neg hi]
    simp
  | succ n ih =>
    intro i ch hn hcap
    have hi : i < maxPumps := by omega
    have hlen : ch.buf.length < ch.cap := by omega
    rw [loadPumps, if_pos hi]
    simp only [Chan.send, if_pos hlen]
    rw [ih (i + 1) _ (by omega) (by simp; omega)]
    simp only [List.range_succ_eq_map, List.map_cons, List.map_map, List.append_assoc,
      List.singleton_append, Nat.cast_zero, add_zero]
    congr 3
    congr 1
    apply List.map_congr_left
    intro k _
    simp only [Function.comp, Nat.cast_succ]
    congr 1
    ring


theorem loadVehicles_eq (maxCars : Int) (n : Nat) :
    ∀ (i : Int) (ch : Chan Vehicle), (maxCars - i).toNat = n → ch.buf.length + n ≤ ch.cap →
      loadVehicles maxCars i ch =
        some { ch with buf := ch.buf ++ (List.range n).map fun k => { Id := i + k, Fillups := 0 } } := by
  induction n with
  | zero =>
    intro i ch hn _
    have hi : ¬ i < maxCars := by omega
    rw [loadVehicles, if_neg hi]
    simp
  | succ n ih =>
    intro i ch hn hcap
    have hi : i < maxCars := by omega
    have hlen : ch.buf.length < ch.cap := by omega
    rw [loadVehicles, if_pos hi]
    simp only [Chan.send, if_pos hlen]
    rw [ih (i + 1) _ (by omega) (by simp; omega)]
    simp only [List.range_succ_eq_map, List.map_cons, List.map_map, List.append_assoc,
      List.singleton_append, Nat.cast_zero, add_zero]
    congr 3
    congr 1
    apply List.map_congr_left
    intro k _
    simp only [Function.comp, Nat.cast_succ]
    congr 1
    ring



theorem maxAlloc_fits_word : maxAlloc - hchanSize < 2 ^ wordBits := by
  decide

theorem makeChan_eq (α : Type) (elemSize : Nat) (size : Int) (h0 : 0 ≤ size)
    (hmax : elemSize * size.toNat ≤ maxAlloc - hchanSize) :
    makeChan α elemSize size = some { cap := size.toNat, buf := [] } := by
  have hword := maxAlloc_fits_word
  have h1 : ¬ 2 ^ wordBits ≤ elemSize * size.toNat := by omega
  have h2 : ¬ maxAlloc - hchanSize < elemSize * size.toNat := by omega
  have h3 : ¬ size < 0 := by omega
  simp only [makeChan, h1, h2, h3, or_self, if_false]

theorem makeChan_some {α : Type} {elemSize : Nat} {size : Int} {ch : Chan α}
    (h : makeChan α elemSize size = some ch) :
    0 ≤ size ∧ elemSize * size.toNat ≤ maxAlloc - hchanSize := by
  simp only [makeChan] at h
  split at h
  · cases h
  · rename_i hnot
    constructor
    · by_contra hneg
      exact hnot (Or.inr (Or.inr (by omega)))
    · by_contra hbig
      exact hnot (Or.inr (Or.inl (by omega)))

theorem NewStation_eq (maxCars maxPumps : Int) (hc : 0 ≤ maxCars) (hp : 0 ≤ maxPumps)
    (hcmax : entitySize * maxCars.toNat ≤ maxAlloc - hchanSize)
    (hpmax : entitySize * maxPumps.toNat ≤ maxAlloc - hchanSize) :
    NewStation maxCars maxPumps = some
      { Pumps := { cap := maxPumps.toNat, buf := freshPumps maxPumps.toNat },
        Vehicles := { cap := maxCars.toNat, buf := freshVehicles maxCars.toNat },
        Timeout := { cap := 1, buf := [] } } := by
  have h1 := loadPumps_eq maxPumps maxPumps.toNat 0 { cap := maxPumps.toNat, buf := [] }
    (by simp) (by simp)
  have h2 := loadVehicles_eq maxCars maxCars.toNat 0 { cap := maxCars.toNat, buf := [] }
    (by simp) (by simp)
  simp only [List.nil_append, zero_add] at h1 h2
  simp [NewStation, makeChan_eq Pump entitySize maxPumps hp hpmax,
    makeChan_eq Vehicle entitySize maxCars hc hcmax, h1, h2, timeAfter, freshPumps,
    freshVehicles]

theorem NewStation_args {maxCars maxPumps : Int} {s : Station}
    (h : NewStation maxCars maxPumps = some s) :
    (0 ≤ maxCars ∧ entitySize * maxCars.toNat ≤ maxAlloc - hchanSize) ∧
      (0 ≤ maxPumps ∧ entitySize * maxPumps.toNat ≤ maxAlloc - hchanSize) := by
  unfold NewStation at h
  cases hp : makeChan Pump entitySize maxPumps with
  | none => simp [hp] at h
  | some pumps =>
    cases hv : makeChan Vehicle entitySize maxCars with
    | none => simp [hp, hv] at h
    | some vehicles => exact ⟨makeChan_some hv, makeChan_some hp⟩

theorem heldPumps_append (l r : List Op) : heldPumps (l ++ r) = heldPumps l ++ heldPumps r := by
  induction l with
  | nil => rfl
  | cons op l ih => simp [heldPumps, ih]

theorem heldVehicles_append (l r : List Op) :
    heldVehicles (l ++ r) = heldVehicles l ++ heldVehicles r := by
  induction l with
  | nil => rfl
  | cons op l ih => simp [heldVehicles, ih]

theorem heldPumps_length (ops : List Op) : (heldPumps ops).length = ops.length := by
  induction ops with
  | nil => rfl
  | cons op l ih => simp [heldPumps, ih]

theorem ops_split {ops : List Op} {i : Nat} {op : Op} (h : ops[i]? = some op) :
    ∃ l r, ops = l ++ op :: r ∧ (∀ op1, ops.set i op1 = l ++ op1 :: r) ∧
      ops.eraseIdx i = l ++ r := by
  induction ops generalizing i with
  | nil => simp at h
  | cons x xs ih =>
    cases i with
    | zero =>
      simp at h
      subst h
      exact ⟨[], xs, by simp⟩
    | succ i =>
      simp at h
      obtain ⟨l, r, h1, h2, h3⟩ := ih h
      refine ⟨x :: l, r, by simp [h1], ?_, by simp [h3]⟩
      intro op1
      simp [h2]

theorem timerFires_inv {maxCars maxPumps : Int} {st st1 : State}
    (hinv : Inv maxCars maxPumps st) (h : timerFires st = some st1) :
    Inv maxCars maxPumps st1 := by
  unfold timerFires at h
  split at h
  · split at h
    · cases h
    · cases h
      exact ⟨hinv.carsNonneg, hinv.pumpsNonneg, hinv.capVehicles, hinv.capPumps,
        hinv.vehicles, hinv.pumps, hinv.wg⟩
  · cases h

theorem RunPumps_inv {maxCars maxPumps : Int} {st st1 : State} {c : Case}
    (hinv : Inv maxCars maxPumps st) (h : RunPumps st c = some st1) :
    Inv maxCars maxPumps st1 := by
  unfold RunPumps at h
  split at h
  · cases c with
    | timeout =>
      simp only at h
      split at h
      · cases h
      · cases h
        exact ⟨hinv.carsNonneg, hinv.pumpsNonneg, hinv.capVehicles, hinv.capPumps,
          hinv.vehicles, hinv.pumps, hinv.wg⟩
    | receive =>
      simp only at h
      split at h
      · cases h
      · rename_i p pumps hrecv
        cases h
        unfold Chan.recv at hrecv
        split at hrecv
        · cases hrecv
        · rename_i x rest hbuf
          cases hrecv
          have hp := hinv.pumps
          rw [hbuf] at hp
          refine ⟨hinv.carsNonneg, hinv.pumpsNonneg, hinv.capVehicles, hinv.capPumps,
            ?_, ?_, ?_⟩
          · simpa [heldVehicles_append, heldVehicles, Op.vehicles] using hinv.vehicles
          · refine List.Perm.trans ?_ hp
            rw [List.perm_iff_count]
            intro a
            simp [heldPumps_append, heldPumps, Op.pump, List.count_append, List.count_cons]
            omega
          · simp [hinv.wg]
            omega
  · cases h


theorem recv_some {α : Type} {ch ch1 : Chan α} {x : α} (h : ch.recv = some (x, ch1)) :
    ch.buf = x :: ch1.buf ∧ ch1.cap = ch.cap := by
  unfold Chan.recv at h
  split at h
  · cases h
  · rename_i y rest hbuf
    cases h
    exact ⟨hbuf, rfl⟩

theorem send_some {α : Type} {ch ch1 : Chan α} {x : α} (h : ch.send x = some ch1) :
    ch1.buf = ch.buf ++ [x] ∧ ch1.cap = ch.cap ∧ ch.buf.length < ch.cap := by
  unfold Chan.send at h
  split at h
  · rename_i hlt
    cases h
    exact ⟨rfl, rfl, hlt⟩
  · cases h

theorem FillNext_inv {maxCars maxPumps : Int} {st st1 : State} {i : Nat} {c : Case}
    (hinv : Inv maxCars maxPumps st) (h : FillNext st i c = some st1) :
    Inv maxCars maxPumps st1 := by
  unfold FillNext at h
  split at h
  · cases h
  · rename_i p hop
    obtain ⟨l, r, hops, hset, herase⟩ := ops_split hop
    have hv := hinv.vehicles
    have hp := hinv.pumps
    have hw := hinv.wg
    rw [hops] at hv hp hw
    cases c with
    | timeout =>
      simp only at h
      split at h
      · cases h
      · cases h
        refine ⟨hinv.carsNonneg, hinv.pumpsNonneg, hinv.capVehicles, hinv.capPumps,
          ?_, ?_, ?_⟩
        · simpa [herase, heldVehicles_append, heldVehicles, Op.vehicles] using hv
        · refine List.Perm.trans ?_ hp
          rw [List.perm_iff_count]
          intro a
          simp [herase, heldPumps_append, heldPumps, Op.pump, List.count_append, List.count_cons]
          omega
        · simp [herase, hw]
          omega
    | receive =>
      simp only at h
      split at h
      · cases h
      · rename_i current vehicles hrecv
        cases h
        obtain ⟨hbuf, hcap⟩ := recv_some hrecv
        rw [hbuf] at hv
        refine ⟨hinv.carsNonneg, hinv.pumpsNonneg, hcap.trans hinv.capVehicles, hinv.capPumps,
          ?_, ?_, ?_⟩
        · refine List.Perm.trans ?_ hv
          rw [List.perm_iff_count]
          intro a
          simp [hset, heldVehicles_append, heldVehicles, Op.vehicles, Vehicle.Fillup,
            List.count_append, List.count_cons]
          omega
        · refine List.Perm.trans ?_ hp
          rw [List.perm_iff_count]
          intro a
          simp [hset, heldPumps_append, heldPumps, Op.pump, List.count_append, List.count_cons]
        · simp [hset, hw]
  · rename_i p current hop
    obtain ⟨l, r, hops, hset, herase⟩ := ops_split hop
    have hv := hinv.vehicles
    have hp := hinv.pumps
    have hw := hinv.wg
    rw [hops] at hv hp hw
    split at h
    · cases h
    · rename_i vehicles hsend
      cases h
      obtain ⟨hbuf, hcap, _⟩ := send_some hsend
      refine ⟨hinv.carsNonneg, hinv.pumpsNonneg, hcap.trans hinv.capVehicles, hinv.capPumps,
        ?_, ?_, ?_⟩
      · refine List.Perm.trans ?_ hv
        rw [List.perm_iff_count]
        intro a
        simp [hset, hbuf, heldVehicles_append, heldVehicles, Op.vehicles,
          List.count_append, List.count_cons]
        omega
      · refine List.Perm.trans ?_ hp
        rw [List.perm_iff_count]
        intro a
        simp [hset, heldPumps_append, heldPumps, Op.pump, List.count_append, List.count_cons]
      · simp [hset, hw]
  · rename_i p hop
    obtain ⟨l, r, hops, hset, herase⟩ := ops_split hop
    have hv := hinv.vehicles
    have hp := hinv.pumps
    have hw := hinv.wg
    rw [hops] at hv hp hw
    split at h
    · cases h
    · rename_i pumps hsend
      cases h
      obtain ⟨hbuf, hcap, _⟩ := send_some hsend
      refine ⟨hinv.carsNonneg, hinv.pumpsNonneg, hinv.capVehicles, hcap.trans hinv.capPumps,
        ?_, ?_, ?_⟩
      · simpa [herase, heldVehicles_append, heldVehicles, Op.vehicles] using hv
      · refine List.Perm.trans ?_ hp
        rw [List.perm_iff_count]
        intro a
        simp [herase, hbuf, heldPumps_append, heldPumps, Op.pump, List.count_append,
          List.count_cons]
        omega
      · simp [herase, hw]
        omega

/-! ## The invariant holds in every reachable state -/

theorem idsBelow_length (n : Int) : (idsBelow n).length = n.toNat := by
  simp [idsBelow]

theorem idsBelow_nodup (n : Int) : (idsBelow n).Nodup := by
  unfold idsBelow
  exact List.Nodup.map (fun a b h => by simpa using h) (List.nodup_range _)

theorem mem_idsBelow {n id : Int} : id ∈ idsBelow n ↔ 0 ≤ id ∧ id < n := by
  unfold idsBelow
  simp only [List.mem_map, List.mem_range]
  constructor
  · rintro ⟨k, hk, rfl⟩
    omega
  · rintro ⟨h0, hlt⟩
    exact ⟨id.toNat, by omega, by simp [h0]⟩

theorem count_idsBelow {n id : Int} (h0 : 0 ≤ id) (hlt : id < n) : (idsBelow n).count id = 1 :=
  List.count_eq_one_of_mem (idsBelow_nodup n) (mem_idsBelow.2 ⟨h0, hlt⟩)

theorem start_inv {maxCars maxPumps : Int} {st0 : State}
    (h : start maxCars maxPumps = some st0) : Inv maxCars maxPumps st0 := by
  unfold start at h
  cases hs : NewStation maxCars maxPumps with
  | none => simp [hs] at h
  | some s =>
    obtain ⟨⟨hc, hcmax⟩, hp, hpmax⟩ := NewStation_args hs
    rw [NewStation_eq maxCars maxPumps hc hp hcmax hpmax] at h
    cases h
    refine ⟨hc, hp, rfl, rfl, ?_, ?_, by simp⟩
    · simp [heldVehicles, freshVehicles, idsBelow, Function.comp_def]
    · simp [heldPumps, freshPumps, idsBelow, Function.comp_def]

theorem step_inv {maxCars maxPumps : Int} {st st1 : State} {a : Action}
    (hinv : Inv maxCars maxPumps st) (h : step st a = some st1) :
    Inv maxCars maxPumps st1 := by
  cases a with
  | tick => exact timerFires_inv hinv h
  | runPumps c => exact RunPumps_inv hinv h
  | fillNext i c => exact FillNext_inv hinv h

theorem exec_inv {maxCars maxPumps : Int} (acts : List Action) :
    ∀ {st st1 : State}, Inv maxCars maxPumps st → exec st acts = some st1 →
      Inv maxCars maxPumps st1 := by
  induction acts with
  | nil =>
    intro st st1 hinv h
    simp only [exec, Option.some.injEq] at h
    exact h ▸ hinv
  | cons a rest ih =>
    intro st st1 hinv h
    simp only [exec] at h
    split at h
    · cases h
    · rename_i st2 hstep
      exact ih (step_inv hinv hstep) h

theorem Reachable.inv {maxCars maxPumps : Int} {st : State}
    (h : Reachable maxCars maxPumps st) : Inv maxCars maxPumps st := by
  obtain ⟨st0, acts, hstart, hexec⟩ := h
  exact exec_inv acts (start_inv hstart) hexec

theorem Inv.vehicles_length {maxCars maxPumps : Int} {st : State}
    (hinv : Inv maxCars maxPumps st) :
    st.s.Vehicles.buf.length + (heldVehicles st.ops).length = st.s.Vehicles.cap := by
  have h := hinv.vehicles.length_eq
  rw [idsBelow_length] at h
  simp only [List.length_map, List.length_append] at h
  rw [hinv.capVehicles]
  exact h

theorem Inv.pumps_length {maxCars maxPumps : Int} {st : State}
    (hinv : Inv maxCars maxPumps st) :
    st.s.Pumps.buf.length + st.ops.length + st.expired.length = st.s.Pumps.cap := by
  have h := hinv.pumps.length_eq
  rw [idsBelow_length] at h
  simp only [List.length_map, List.length_append, heldPumps_length] at h
  rw [hinv.capPumps]
  exact h

/-! ## Transitions of `FillNext` in closed form -/

theorem ops_set_at {ops : List Op} {i : Nat} {op : Op} (h : ops[i]? = some op) (op1 : Op) :
    (ops.set i op1)[i]? = some op1 ∧ (∀ op2, (ops.set i op1).set i op2 = ops.set i op2) ∧
      (ops.set i op1).eraseIdx i = ops.eraseIdx i := by
  induction ops generalizing i with
  | nil => simp at h
  | cons x xs ih =>
    cases i with
    | zero => simp
    | succ i =>
      simp at h
      obtain ⟨h1, h2, h3⟩ := ih h
      simp [h1, h2, h3]

theorem FillNext_receive_eq {st : State} {i : Nat} {p : Pump} {c : Vehicle}
    {rest : List Vehicle} (hop : st.ops[i]? = some (Op.atSelect p))
    (hhead : st.s.Vehicles.buf = c :: rest) :
    FillNext st i Case.receive = some
      { st with
        s := { st.s with Vehicles := { st.s.Vehicles with buf := rest } },
        ops := st.ops.set i
          (Op.atSendVehicle { Id := p.Id, Fillups := p.Fillups + 1 }
            { Id := c.Id, Fillups := c.Fillups + 1 }) } := by
  simp [FillNext, hop, Chan.recv, hhead, Vehicle.Fillup]

theorem FillNext_sendVehicle_eq {st : State} {i : Nat} {p : Pump} {current : Vehicle}
    (c : Case) (hop : st.ops[i]? = some (Op.atSendVehicle p current))
    (hroom : st.s.Vehicles.buf.length < st.s.Vehicles.cap) :
    FillNext st i c = some
      { st with
        s := { st.s with Vehicles := { st.s.Vehicles with buf := st.s.Vehicles.buf ++ [current] } },
        ops := st.ops.set i (Op.atSendPump p) } := by
  simp [FillNext, hop, Chan.send, hroom]

/-! ## Concrete executions and the deadline path -/

theorem start_main : start 10 4 = some mainStart := by
  rw [start, NewStation_eq 10 4 (by decide) (by decide) (by decide) (by decide)]
  rfl

theorem main_reachable {acts : List Action} {st : State}
    (h : exec mainStart acts = some st) : Reachable 10 4 st :=
  ⟨mainStart, acts, start_main, h⟩

theorem launchedState_exec : exec mainStart [Action.runPumps Case.receive] = some launchedState :=
  rfl

theorem fillingState_exec : exec mainStart fillingSchedule = some fillingState :=
  rfl

theorem reportState_exec : exec mainStart reportSchedule = some reportState :=
  rfl

theorem step_expired {st st1 : State} {a : Action} (h : step st a = some st1) :
    st.expired.length ≤ st1.expired.length := by
  cases a with
  | tick =>
    simp only [step, timerFires] at h
    split at h
    · split at h
      · cases h
      · cases h
        exact Nat.le_refl _
    · cases h
  | runPumps c =>
    simp only [step, RunPumps] at h
    split at h
    · cases c <;> simp only at h <;> split at h <;> cases h <;> exact Nat.le_refl _
    · cases h
  | fillNext i c =>
    simp only [step, FillNext] at h
    split at h
    · cases h
    · cases c <;> simp only at h <;> split at h <;> cases h
      · simp
      · exact Nat.le_refl _
    · split at h <;> cases h
      exact Nat.le_refl _
    · split at h <;> cases h
      exact Nat.le_refl _

theorem exec_expired (acts : List Action) :
    ∀ {st st1 : State}, exec st acts = some st1 → st.expired.length ≤ st1.expired.length := by
  induction acts with
  | nil =>
    intro st st1 h
    simp only [exec, Option.some.injEq] at h
    exact h ▸ Nat.le_refl _
  | cons a rest ih =>
    intro st st1 h
    simp only [exec] at h
    split at h
    · cases h
    · rename_i st2 hstep
      exact Nat.le_trans (step_expired hstep) (ih h)

theorem exec_append (acts1 acts2 : List Action) :
    ∀ {st st1 st2 : State}, exec st acts1 = some st1 → exec st1 acts2 = some st2 →
      exec st (acts1 ++ acts2) = some st2 := by
  induction acts1 with
  | nil =>
    intro st st1 st2 h1 h2
    simp only [exec, Option.some.injEq] at h1
    subst h1
    exact h2
  | cons a rest ih =>
    intro st st1 st2 h1 h2
    simp only [exec, List.cons_append] at h1 ⊢
    split at h1
    · cases h1
    · rename_i st3 hstep
      exact ih h1 h2

theorem Reachable.extend {maxCars maxPumps : Int} {st st1 : State} {acts : List Action}
    (h : Reachable maxCars maxPumps st) (hexec : ChannelChallenge.exec st acts = some st1) :
    Reachable maxCars maxPumps st1 := by
  obtain ⟨st0, acts0, hstart, h0⟩ := h
  exact ⟨st0, acts0 ++ acts, hstart, exec_append acts0 acts h0 hexec⟩

theorem wg_positive_after_expiry {maxCars maxPumps : Int} {st st1 : State}
    {acts : List Action} (h : Reachable maxCars maxPumps st) (hexp : 0 < st.expired.length)
    (hexec : exec st acts = some st1) : 0 < st1.wg := by
  have hinv := (h.extend hexec).inv
  have hmono := exec_expired acts hexec
  have hw := hinv.wg
  omega

theorem step_drained {st st1 : State} {a : Action} (harm : st.timerArmed = false)
    (hbuf : st.s.Timeout.buf = []) (h : step st a = some st1) :
    st1.timerArmed = false ∧ st1.s.Timeout.buf = [] ∧ st1.running = st.running := by
  cases a with
  | tick => simp [step, timerFires, harm] at h
  | runPumps c =>
    simp only [step, RunPumps] at h
    split at h
    · cases c with
      | timeout => simp [Chan.recv, hbuf] at h
      | receive =>
        simp only at h
        split at h <;> cases h
        exact ⟨harm, hbuf, rfl⟩
    · cases h
  | fillNext i c =>
    simp only [step, FillNext] at h
    split at h
    · cases h
    · cases c with
      | timeout => simp [Chan.recv, hbuf] at h
      | receive =>
        simp only at h
        split at h <;> cases h
        exact ⟨harm, hbuf, rfl⟩
    · split at h <;> cases h
      exact ⟨harm, hbuf, rfl⟩
    · split at h <;> cases h
      exact ⟨harm, hbuf, rfl⟩

theorem exec_drained (acts : List Action) :
    ∀ {st st1 : State}, st.timerArmed = false → st.s.Timeout.buf = [] →
      exec st acts = some st1 →
      st1.timerArmed = false ∧ st1.s.Timeout.buf = [] ∧ st1.running = st.running := by
  induction acts with
  | nil =>
    intro st st1 harm hbuf h
    simp only [exec, Option.some.injEq] at h
    subst h
    exact ⟨harm, hbuf, rfl⟩
  | cons a rest ih =>
    intro st st1 harm hbuf h
    simp only [exec] at h
    split at h
    · cases h
    · rename_i st2 hstep
      obtain ⟨h1, h2, h3⟩ := step_drained harm hbuf hstep
      obtain ⟨h4, h5, h6⟩ := ih h1 h2 h
      exact ⟨h4, h5, h6.trans h3⟩

theorem timeout_case_blocked {st : State} (hbuf : st.s.Timeout.buf = []) :
    RunPumps st Case.timeout = none ∧
      ∀ (i : Nat) (p : Pump), st.ops[i]? = some (Op.atSelect p) →
        FillNext st i Case.timeout = none := by
  constructor
  · simp [RunPumps, Chan.recv, hbuf]
  · intro i p hop
    simp [FillNext, hop, Chan.recv, hbuf]

/-! ## Claims -/

/-- C1 as stated fails: `NewStation(0, 1 << 62)` has non-negative arguments
and returns no station.  `make(chan Pump, 1 << 62)` panics with
`makechan: size out of range`, since `16 * (1 << 62)` bytes do not fit a
`uintptr`. -/
theorem NewStation_size_out_of_range :
    (0 : Int) ≤ 0 ∧ (0 : Int) ≤ 2 ^ 62 ∧ NewStation 0 (2 ^ 62) = none ∧
      ¬ ∃ s : Station, NewStation 0 (2 ^ 62) = some s := by
  have h : NewStation 0 (2 ^ 62) = none := by
    have hmk : makeChan Pump entitySize (2 ^ 62) = none := by decide
    unfold NewStation
    rw [hmk]
    rfl
  refine ⟨by decide, by decide, h, ?_⟩
  rintro ⟨s, hs⟩
  rw [h] at hs
  cases hs

/-- C1 amended: for non-negative `maxCars` and `maxPumps` that pass the size
check of `make` (`16 * n` bytes are at most `maxAlloc - hchanSize`),
`NewStation` returns a station whose pump pool holds exactly `maxPumps` pumps
with ids `0, ..., maxPumps - 1` in queue order, each with `Fillups = 0`, and
whose vehicle pool holds exactly `maxCars` vehicles with ids
`0, ..., maxCars - 1` in queue order, each with `Fillups = 0`. -/
theorem NewStation_pools (maxCars maxPumps : Int) (hc : 0 ≤ maxCars) (hp : 0 ≤ maxPumps)
    (hcmax : entitySize * maxCars.toNat ≤ maxAlloc - hchanSize)
    (hpmax : entitySize * maxPumps.toNat ≤ maxAlloc - hchanSize) :
    ∃ s : Station, NewStation maxCars maxPumps = some s ∧
      s.Pumps.buf = (List.range maxPumps.toNat).map
        (fun (k : Nat) => ({ Id := (k : Int), Fillups := 0 } : Pump)) ∧
      (s.Pumps.buf.length : Int) = maxPumps ∧
      s.Vehicles.buf = (List.range maxCars.toNat).map
        (fun (k : Nat) => ({ Id := (k : Int), Fillups := 0 } : Vehicle)) ∧
      (s.Vehicles.buf.length : Int) = maxCars := by
  refine ⟨_, NewStation_eq maxCars maxPumps hc hp hcmax hpmax, rfl, ?_, rfl, ?_⟩
  · simp [freshPumps, hp]
  · simp [freshVehicles, hc]

/-- C1 amended, at the arguments used by `main`, `NewStation(10, 4)`. -/
theorem NewStation_pools_witness :
    (0 : Int) ≤ 10 ∧ (0 : Int) ≤ 4 ∧
    entitySize * (10 : Int).toNat ≤ maxAlloc - hchanSize ∧
    entitySize * (4 : Int).toNat ≤ maxAlloc - hchanSize ∧
    ∃ s : Station, NewStation 10 4 = some s ∧
      s.Pumps.buf = (List.range (4 : Int).toNat).map
        (fun (k : Nat) => ({ Id := (k : Int), Fillups := 0 } : Pump)) ∧
      (s.Pumps.buf.length : Int) = 4 ∧
      s.Vehicles.buf = (List.range (10 : Int).toNat).map
        (fun (k : Nat) => ({ Id := (k : Int), Fillups := 0 } : Vehicle)) ∧
      (s.Vehicles.buf.length : Int) = 10 :=
  ⟨by decide, by decide, by decide, by decide,
    NewStation_pools 10 4 (by decide) (by decide) (by decide) (by decide)⟩

/-- C2: in a reachable state, let the `i`-th `FillNext` goroutine be blocked in
its `select` holding pump `p`, and let vehicle `c` be at the head of the
vehicle pool.  Running that goroutine through the vehicle case to its `return`
succeeds (no send blocks) and yields the same state except that `c` is removed
from the head of the vehicle pool, a vehicle with the same id and
`Fillups = c.Fillups + 1` is appended to the vehicle pool, a pump with the same
id and `Fillups = p.Fillups + 1` is appended to the pump pool, the goroutine is
no longer running and the wait group is decremented; all other pumps, vehicles
and goroutines are unchanged. -/
theorem FillNext_vehicle_branch (maxCars maxPumps : Int) (st : State) (i : Nat) (p : Pump)
    (c : Vehicle) (rest : List Vehicle)
    (hreach : Reachable maxCars maxPumps st)
    (hop : st.ops[i]? = some (Op.atSelect p))
    (hhead : st.s.Vehicles.buf = c :: rest) :
    serve st i = some
      { st with
        s := { st.s with
          Vehicles := { st.s.Vehicles with
            buf := rest ++ [{ Id := c.Id, Fillups := c.Fillups + 1 }] },
          Pumps := { st.s.Pumps with
            buf := st.s.Pumps.buf ++ [{ Id := p.Id, Fillups := p.Fillups + 1 }] } },
        wg := st.wg - 1,
        ops := st.ops.eraseIdx i } := by
  have hinv := hreach.inv
  have hv := hinv.vehicles_length
  have hp := hinv.pumps_length
  have hlenV : rest.length < st.s.Vehicles.cap := by
    rw [hhead] at hv
    simp at hv
    omega
  have hlenP : st.s.Pumps.buf.length < st.s.Pumps.cap := by
    obtain ⟨l, r, hops, -, -⟩ := ops_split hop
    rw [hops] at hp
    simp at hp
    omega
  obtain ⟨hget1, hset1, -⟩ := ops_set_at hop
    (Op.atSendVehicle { Id := p.Id, Fillups := p.Fillups + 1 }
      { Id := c.Id, Fillups := c.Fillups + 1 })
  obtain ⟨hget2, -, herase2⟩ :=
    ops_set_at hop (Op.atSendPump { Id := p.Id, Fillups := p.Fillups + 1 })
  simp only [serve, exec, step]
  rw [FillNext_receive_eq hop hhead]
  simp only
  rw [FillNext_sendVehicle_eq Case.receive hget1 hlenV]
  simp only [hset1]
  simp [FillNext, hget2, Chan.send, hlenP, herase2]

/-- C2 in the run of `main`, right after `RunPumps` launched `FillNext` with
pump 0: the service moves vehicle 0 and pump 0, both with `Fillups = 1`, to
the tails of their pools. -/
theorem FillNext_vehicle_branch_witness :
    Reachable 10 4 launchedState ∧
    launchedState.ops[0]? = some (Op.atSelect { Id := 0, Fillups := 0 }) ∧
    launchedState.s.Vehicles.buf = { Id := 0, Fillups := 0 } :: (freshVehicles 10).tail ∧
    serve launchedState 0 = some
      { launchedState with
        s := { launchedState.s with
          Vehicles := { launchedState.s.Vehicles with
            buf := (freshVehicles 10).tail ++ [{ Id := 0, Fillups := 0 + 1 }] },
          Pumps := { launchedState.s.Pumps with
            buf := launchedState.s.Pumps.buf ++ [{ Id := 0, Fillups := 0 + 1 }] } },
        wg := launchedState.wg - 1,
        ops := launchedState.ops.eraseIdx 0 } :=
  ⟨main_reachable launchedState_exec, rfl, rfl,
    FillNext_vehicle_branch 10 4 launchedState 0 { Id := 0, Fillups := 0 }
      { Id := 0, Fillups := 0 } (freshVehicles 10).tail
      (main_reachable launchedState_exec) rfl rfl⟩

/-- C3, the code on the deadline path: in the run of `main`, after `RunPumps`
launched two `FillNext` goroutines and the timer expired, the first goroutine
takes `case <-s.Timeout` and returns (one goroutine fewer is running) while the
wait-group counter keeps its value: `wg.Done()` is not called on this path.
From then on the counter stays positive in every continuation, so `wg.Wait()`
never returns. -/
theorem FillNext_deadline_skips_Done :
    ∃ st st1 : State, exec mainStart deadlineSchedule = some st ∧ Reachable 10 4 st ∧
      st.ops[0]? = some (Op.atSelect { Id := 0, Fillups := 0 }) ∧
      FillNext st 0 Case.timeout = some st1 ∧
      st1.ops.length + 1 = st.ops.length ∧
      st.wg = 2 ∧ st1.wg = 2 ∧
      ∀ (acts : List Action) (st2 : State), exec st1 acts = some st2 → 0 < st2.wg := by
  have h : exec mainStart deadlineSchedule = some
      { s := { Pumps := { cap := 4, buf := ((freshPumps 4).tail).tail },
               Vehicles := { cap := 10, buf := freshVehicles 10 },
               Timeout := { cap := 1, buf := [()] } },
        timerArmed := false, wg := 2, running := true,
        ops := [Op.atSelect { Id := 0, Fillups := 0 }, Op.atSelect { Id := 1, Fillups := 0 }],
        expired := [] } := rfl
  refine ⟨_, _, h, main_reachable h, rfl, rfl, rfl, rfl, rfl, ?_⟩
  intro acts st2 hexec
  have hstep : exec mainStart leakSchedule = some _ :=
    exec_append deadlineSchedule [Action.fillNext 0 Case.timeout] h rfl
  exact wg_positive_after_expiry (main_reachable hstep) (by decide) hexec

/-- C4, the code: the value sent by the timer on `s.Timeout` is received by one
`select` only.  In the run of `main`, after the timer expired and one
`FillNext` goroutine took `case <-s.Timeout`, the deadline case is not ready
for the `select` of `RunPumps` nor for the `select` of the other `FillNext`
goroutine, and it never becomes ready again: in every continuation `RunPumps`
is still running and no `select` can take the deadline case. -/
theorem deadline_consumed_by_first_select :
    ∃ st : State, exec mainStart leakSchedule = some st ∧ Reachable 10 4 st ∧
      st.timerArmed = false ∧ st.running = true ∧
      st.ops[0]? = some (Op.atSelect { Id := 1, Fillups := 0 }) ∧
      RunPumps st Case.timeout = none ∧
      FillNext st 0 Case.timeout = none ∧
      ∀ (acts : List Action) (st2 : State), exec st acts = some st2 →
        st2.running = true ∧ RunPumps st2 Case.timeout = none ∧
        ∀ (i : Nat) (p : Pump), st2.ops[i]? = some (Op.atSelect p) →
          FillNext st2 i Case.timeout = none := by
  have h : exec mainStart leakSchedule = some
      { s := { Pumps := { cap := 4, buf := ((freshPumps 4).tail).tail },
               Vehicles := { cap := 10, buf := freshVehicles 10 },
               Timeout := { cap := 1, buf := [] } },
        timerArmed := false, wg := 2, running := true,
        ops := [Op.atSelect { Id := 1, Fillups := 0 }],
        expired := [{ Id := 0, Fillups := 0 }] } := rfl
  refine ⟨_, h, main_reachable h, rfl, rfl, rfl, rfl, rfl, ?_⟩
  intro acts st2 hexec
  obtain ⟨-, hbuf, hrun⟩ := exec_drained acts rfl rfl hexec
  exact ⟨hrun, timeout_case_blocked hbuf⟩

/-- C5: in every state reachable from `NewStation(maxCars, maxPumps)`, each
vehicle id in `0, ..., maxCars - 1` occurs exactly once across the vehicle pool
and the vehicles held by running `FillNext` goroutines, no other id occurs, and
the number of vehicles in the pool plus the number held is `maxCars`. -/
theorem vehicles_conserved (maxCars maxPumps : Int) (st : State)
    (h : Reachable maxCars maxPumps st) :
    (∀ id : Int, 0 ≤ id → id < maxCars →
      ((st.s.Vehicles.buf ++ heldVehicles st.ops).map Vehicle.Id).count id = 1) ∧
    (∀ id : Int, id ∈ (st.s.Vehicles.buf ++ heldVehicles st.ops).map Vehicle.Id →
      0 ≤ id ∧ id < maxCars) ∧
    (st.s.Vehicles.buf.length : Int) + ((heldVehicles st.ops).length : Int) = maxCars := by
  have hinv := h.inv
  refine ⟨?_, ?_, ?_⟩
  · intro id h0 hlt
    rw [hinv.vehicles.count_eq, count_idsBelow h0 hlt]
  · intro id hmem
    exact mem_idsBelow.1 ((hinv.vehicles.mem_iff).1 hmem)
  · have hlen := hinv.vehicles_length
    have hcap := hinv.capVehicles
    have hc := hinv.carsNonneg
    omega

/-- C5 in the run of `main`, while a goroutine holds vehicle 0. -/
theorem vehicles_conserved_witness :
    Reachable 10 4 fillingState ∧
    ((∀ id : Int, 0 ≤ id → id < 10 →
      ((fillingState.s.Vehicles.buf ++ heldVehicles fillingState.ops).map Vehicle.Id).count id
        = 1) ∧
    (∀ id : Int,
      id ∈ (fillingState.s.Vehicles.buf ++ heldVehicles fillingState.ops).map Vehicle.Id →
      0 ≤ id ∧ id < 10) ∧
    (fillingState.s.Vehicles.buf.length : Int) +
      ((heldVehicles fillingState.ops).length : Int) = 10) :=
  ⟨main_reachable fillingState_exec,
    vehicles_conserved 10 4 fillingState (main_reachable fillingState_exec)⟩

/-- C6, the code on the deadline path: in the run of `main`, after `RunPumps`
launched `FillNext` for pumps 0 and 1, the timer expired and the goroutine
holding pump 0 took `case <-s.Timeout`, two pumps are in the pool and one is
held by a running goroutine: three pumps, not `maxPumps = 4`.  Pump 0 is
gone. -/
theorem pump_lost_on_deadline :
    ∃ st : State, exec mainStart leakSchedule = some st ∧ Reachable 10 4 st ∧
      st.s.Pumps.buf = [{ Id := 2, Fillups := 0 }, { Id := 3, Fillups := 0 }] ∧
      heldPumps st.ops = [{ Id := 1, Fillups := 0 }] ∧
      (st.s.Pumps.buf.length : Int) + ((heldPumps st.ops).length : Int) ≠ 4 := by
  have h : exec mainStart leakSchedule = some _ := rfl
  exact ⟨_, h, main_reachable h, rfl, rfl, by decide⟩

/-- C7, the code on the deadline path: in the run of `main`, after pump 0
served vehicle 0 once and was then dropped by a `FillNext` goroutine that took
`case <-s.Timeout`, the `Fillups` of the pumps in the pool or held by running
goroutines sum to 0 while the `Fillups` of the vehicles sum to 1. -/
theorem fill_sums_differ_after_leak :
    ∃ st : State, exec mainStart servedLeakSchedule = some st ∧ Reachable 10 4 st ∧
      pumpFills (st.s.Pumps.buf ++ heldPumps st.ops) = 0 ∧
      vehicleFills (st.s.Vehicles.buf ++ heldVehicles st.ops) = 1 ∧
      pumpFills (st.s.Pumps.buf ++ heldPumps st.ops) ≠
        vehicleFills (st.s.Vehicles.buf ++ heldVehicles st.ops) := by
  have h : exec mainStart servedLeakSchedule = some _ := rfl
  exact ⟨_, h, main_reachable h, rfl, rfl, by decide⟩

/-- C8: in every state reachable from `NewStation(maxCars, maxPumps)` the pump
pool holds at most `maxPumps` entries and the vehicle pool at most `maxCars`
entries; whenever a `FillNext` goroutine is about to run `s.Vehicles <- current`
the vehicle pool holds strictly fewer entries than its capacity `maxCars`, and
whenever it is about to run `s.Pumps <- p` the pump pool holds strictly fewer
entries than its capacity `maxPumps`; in both cases the transition of the
goroutine is enabled, so the send does not block. -/
theorem release_never_blocks (maxCars maxPumps : Int) (st : State)
    (h : Reachable maxCars maxPumps st) :
    (st.s.Pumps.buf.length : Int) ≤ maxPumps ∧
    (st.s.Vehicles.buf.length : Int) ≤ maxCars ∧
    (∀ (i : Nat) (p : Pump) (current : Vehicle),
      st.ops[i]? = some (Op.atSendVehicle p current) →
        (st.s.Vehicles.buf.length : Int) < maxCars ∧
        st.s.Vehicles.buf.length < st.s.Vehicles.cap ∧
        ∀ c : Case, (FillNext st i c).isSome = true) ∧
    (∀ (i : Nat) (p : Pump), st.ops[i]? = some (Op.atSendPump p) →
        (st.s.Pumps.buf.length : Int) < maxPumps ∧
        st.s.Pumps.buf.length < st.s.Pumps.cap ∧
        ∀ c : Case, (FillNext st i c).isSome = true) := by
  have hinv := h.inv
  have hv := hinv.vehicles_length
  have hp := hinv.pumps_length
  have hcv := hinv.capVehicles
  have hcp := hinv.capPumps
  have hc := hinv.carsNonneg
  have hpn := hinv.pumpsNonneg
  refine ⟨by omega, by omega, ?_, ?_⟩
  · intro i p current hop
    obtain ⟨l, r, hops, -, -⟩ := ops_split hop
    have hheld : 0 < (heldVehicles st.ops).length := by
      rw [hops]
      simp [heldVehicles_append, heldVehicles, Op.vehicles]
    have hlt : st.s.Vehicles.buf.length < st.s.Vehicles.cap := by omega
    refine ⟨by omega, hlt, ?_⟩
    intro c
    simp [FillNext, hop, Chan.send, hlt]
  · intro i p hop
    obtain ⟨l, r, hops, -, -⟩ := ops_split hop
    have hheld : 0 < st.ops.length := by
      rw [hops]
      simp
    have hlt : st.s.Pumps.buf.length < st.s.Pumps.cap := by omega
    refine ⟨by omega, hlt, ?_⟩
    intro c
    simp [FillNext, hop, Chan.send, hlt]

/-- C8 in the run of `main`, in a state where a goroutine is about to run
`s.Vehicles <- current`. -/
theorem release_never_blocks_witness :
    Reachable 10 4 fillingState ∧
    fillingState.ops[0]? =
      some (Op.atSendVehicle { Id := 0, Fillups := 1 } { Id := 0, Fillups := 1 }) ∧
    ((fillingState.s.Pumps.buf.length : Int) ≤ 4 ∧
    (fillingState.s.Vehicles.buf.length : Int) ≤ 10 ∧
    (∀ (i : Nat) (p : Pump) (current : Vehicle),
      fillingState.ops[i]? = some (Op.atSendVehicle p current) →
        (fillingState.s.Vehicles.buf.length : Int) < 10 ∧
        fillingState.s.Vehicles.buf.length < fillingState.s.Vehicles.cap ∧
        ∀ c : Case, (FillNext fillingState i c).isSome = true) ∧
    (∀ (i : Nat) (p : Pump), fillingState.ops[i]? = some (Op.atSendPump p) →
        (fillingState.s.Pumps.buf.length : Int) < 4 ∧
        fillingState.s.Pumps.buf.length < fillingState.s.Pumps.cap ∧
        ∀ c : Case, (FillNext fillingState i c).isSome = true)) :=
  ⟨main_reachable fillingState_exec, rfl,
    release_never_blocks 10 4 fillingState (main_reachable fillingState_exec)⟩

/-- C9 as stated fails: in the run of `main` under `reportSchedule`, `RunPumps`
has returned, the wait group is at zero and no goroutine is running, and
`PrintTotals` lists the pumps in the order 1, 0, 2, 3 and the vehicles in the
order 4, 5, 6, 7, 8, 9, 1, 0, 2, 3: neither sequence of ids is increasing. -/
theorem report_not_ascending :
    Reachable 10 4 reportState ∧ reportReady reportState ∧ reportState.ops = [] ∧
      main reportSchedule = some
        ["===============\t===============", "Pump\tFills Given",
          "===============\t===============",
          "1\t1", "0\t1", "2\t1", "3\t1", "",
          "===============\t===============", "Car\tFills Received",
          "===============\t===============",
          "4\t0", "5\t0", "6\t0", "7\t0", "8\t0", "9\t0", "1\t1", "0\t1", "2\t1", "3\t1"] ∧
      (pumpRows reportState.s).map Prod.fst = [1, 0, 2, 3] ∧
      (carRows reportState.s).map Prod.fst = [4, 5, 6, 7, 8, 9, 1, 0, 2, 3] ∧
      ¬ List.Sorted (· < ·) ((pumpRows reportState.s).map Prod.fst) ∧
      ¬ List.Sorted (· < ·) ((carRows reportState.s).map Prod.fst) := by
  refine ⟨main_reachable reportState_exec, ⟨rfl, rfl⟩, rfl, ?_, rfl, rfl, ?_, ?_⟩
  · simp only [main, start_main, reportState_exec]
    decide
  · decide
  · decide

/-- C9 amended: in every reachable state in which the report is generated
(`RunPumps` has returned and the wait group is at zero), `PrintTotals` lists
the pumps in the queue order of the pump pool and the vehicles in the queue
order of the vehicle pool; no id is listed twice, and the ids listed are
exactly `0, ..., maxPumps - 1` for the pumps and `0, ..., maxCars - 1` for the
vehicles. -/
theorem report_lists_queue_order (maxCars maxPumps : Int) (st : State)
    (h : Reachable maxCars maxPumps st) (hr : reportReady st) :
    PrintTotals st.s =
      ["===============\t===============", "Pump\tFills Given",
        "===============\t==============="] ++
      st.s.Pumps.buf.map (fun p => fmtRow (p.Id, p.Fillups)) ++
      ["", "===============\t===============", "Car\tFills Received",
        "===============\t==============="] ++
      st.s.Vehicles.buf.map (fun c => fmtRow (c.Id, c.Fillups)) ∧
    pumpRows st.s = st.s.Pumps.buf.map (fun p => (p.Id, p.Fillups)) ∧
    carRows st.s = st.s.Vehicles.buf.map (fun c => (c.Id, c.Fillups)) ∧
    ((pumpRows st.s).map Prod.fst).Nodup ∧
    (∀ id : Int, id ∈ (pumpRows st.s).map Prod.fst ↔ 0 ≤ id ∧ id < maxPumps) ∧
    ((carRows st.s).map Prod.fst).Nodup ∧
    (∀ id : Int, id ∈ (carRows st.s).map Prod.fst ↔ 0 ≤ id ∧ id < maxCars) := by
  have hinv := h.inv
  obtain ⟨-, hwg⟩ := hr
  have hw := hinv.wg
  have hops : st.ops = [] := List.eq_nil_of_length_eq_zero (by omega)
  have hexp : st.expired = [] := List.eq_nil_of_length_eq_zero (by omega)
  have hp := hinv.pumps
  have hv := hinv.vehicles
  rw [hops, hexp] at hp
  rw [hops] at hv
  simp only [heldPumps, heldVehicles, List.append_nil] at hp hv
  have hp1 : List.Perm ((pumpRows st.s).map Prod.fst) (idsBelow maxPumps) := by
    simpa [pumpRows, Chan.drain, Function.comp_def] using hp
  have hv1 : List.Perm ((carRows st.s).map Prod.fst) (idsBelow maxCars) := by
    simpa [carRows, Chan.drain, Function.comp_def] using hv
  refine ⟨?_, rfl, rfl, hp1.nodup_iff.2 (idsBelow_nodup _), ?_,
    hv1.nodup_iff.2 (idsBelow_nodup _), ?_⟩
  · simp [PrintTotals, pumpRows, carRows, Chan.drain, Function.comp_def]
  · intro id
    rw [hp1.mem_iff, mem_idsBelow]
  · intro id
    rw [hv1.mem_iff, mem_idsBelow]

/-- C9 amended, in the run of `main` under `reportSchedule`. -/
theorem report_lists_queue_order_witness :
    Reachable 10 4 reportState ∧ reportReady reportState ∧
    (PrintTotals reportState.s =
      ["===============\t===============", "Pump\tFills Given",
        "===============\t==============="] ++
      reportState.s.Pumps.buf.map (fun p => fmtRow (p.Id, p.Fillups)) ++
      ["", "===============\t===============", "Car\tFills Received",
        "===============\t==============="] ++
      reportState.s.Vehicles.buf.map (fun c => fmtRow (c.Id, c.Fillups)) ∧
    pumpRows reportState.s = reportState.s.Pumps.buf.map (fun p => (p.Id, p.Fillups)) ∧
    carRows reportState.s = reportState.s.Vehicles.buf.map (fun c => (c.Id, c.Fillups)) ∧
    ((pumpRows reportState.s).map Prod.fst).Nodup ∧
    (∀ id : Int, id ∈ (pumpRows reportState.s).map Prod.fst ↔ 0 ≤ id ∧ id < 4) ∧
    ((carRows reportState.s).map Prod.fst).Nodup ∧
    (∀ id : Int, id ∈ (carRows reportState.s).map Prod.fst ↔ 0 ≤ id ∧ id < 10)) :=
  ⟨main_reachable reportState_exec, ⟨rfl, rfl⟩,
    report_lists_queue_order 10 4 reportState (main_reachable reportState_exec) ⟨rfl, rfl⟩⟩

/-- C10: in every state reachable from `NewStation(maxCars, maxPumps)` the
wait-group counter equals the number of running `FillNext` goroutines plus the
number of `FillNext` goroutines that returned through the deadline case.
Consequently, in every reachable state where `RunPumps` has returned and the
counter is 0, no goroutine is running, none returned through the deadline case,
and the ids in the pump pool are a permutation of `0, ..., maxPumps - 1` and
the ids in the vehicle pool a permutation of `0, ..., maxCars - 1`. -/
theorem wg_accounting (maxCars maxPumps : Int) (st : State)
    (h : Reachable maxCars maxPumps st) :
    st.wg = (st.ops.length : Int) + (st.expired.length : Int) ∧
    (reportReady st →
      st.ops = [] ∧ st.expired = [] ∧
      List.Perm (st.s.Pumps.buf.map Pump.Id) (idsBelow maxPumps) ∧
      (st.s.Pumps.buf.length : Int) = maxPumps ∧
      List.Perm (st.s.Vehicles.buf.map Vehicle.Id) (idsBelow maxCars) ∧
      (st.s.Vehicles.buf.length : Int) = maxCars) := by
  have hinv := h.inv
  refine ⟨hinv.wg, ?_⟩
  rintro ⟨-, hwg⟩
  have hw := hinv.wg
  have hops : st.ops = [] := List.eq_nil_of_length_eq_zero (by omega)
  have hexp : st.expired = [] := List.eq_nil_of_length_eq_zero (by omega)
  have hp := hinv.pumps
  have hv := hinv.vehicles
  have hpl := hinv.pumps_length
  have hvl := hinv.vehicles_length
  have hcp := hinv.capPumps
  have hcv := hinv.capVehicles
  have hpn := hinv.pumpsNonneg
  have hcn := hinv.carsNonneg
  rw [hops, hexp] at hp hpl
  rw [hops] at hv hvl
  simp only [heldPumps, heldVehicles, List.append_nil, List.length_nil, Nat.add_zero]
    at hp hv hpl hvl
  exact ⟨hops, hexp, hp, by omega, hv, by omega⟩

/-- C10 in the run of `main` under `reportSchedule`, a state in which the
report is generated. -/
theorem wg_accounting_witness :
    Reachable 10 4 reportState ∧ reportReady reportState ∧
    reportState.wg = (reportState.ops.length : Int) + (reportState.expired.length : Int) ∧
    (reportReady reportState →
      reportState.ops = [] ∧ reportState.expired = [] ∧
      List.Perm (reportState.s.Pumps.buf.map Pump.Id) (idsBelow 4) ∧
      (reportState.s.Pumps.buf.length : Int) = 4 ∧
      List.Perm (reportState.s.Vehicles.buf.map Vehicle.Id) (idsBelow 10) ∧
      (reportState.s.Vehicles.buf.length : Int) = 10) :=
  ⟨main_reachable reportState_exec, ⟨rfl, rfl⟩,
    wg_accounting 10 4 reportState (main_reachable reportState_exec)⟩

end ChannelChallenge
